import Mathlib

/-!
# Real-Time Notes Management System — verification of the notes core

A shallow embedding of the note lifecycle, versioning, sharing, access
control, notification and realtime-presence logic of the backend
(`src/notes/notes.service.ts`, `src/notifications/notifications.service.ts`,
`src/websocket/websocket.gateway.ts`), together with theorems settling the
specification's claims about it.

The relational store is modelled as explicit lists of rows; every service
method becomes a pure function from a database state to either an error
(`ApiError`) or a new database state, mirroring the Prisma calls of the
source one by one.  Opaque string ids (UUIDs) are modelled as `Nat`.
-/

namespace NotesApp

/-- Note visibility enum from the Prisma schema (`PRIVATE`/`SHARED`/`PUBLIC`). -/
inductive Visibility
  | PRIVATE
  | SHARED
  | PUBLIC
deriving DecidableEq

/-- Share-grant permission enum; the service only ever writes `VIEW`. -/
inductive Permission
  | VIEW
  | EDIT
deriving DecidableEq

/-- Notification type enum (`NOTE_SHARED`/`NOTE_UPDATED`/`SYSTEM`). -/
inductive NotificationType
  | NOTE_SHARED
  | NOTE_UPDATED
  | SYSTEM
deriving DecidableEq

/-- Error kinds thrown by the service layer: `NotFoundException`,
`ForbiddenException`, `BadRequestException`. -/
inductive ApiError
  | notFound
  | forbidden
  | badRequest
deriving DecidableEq

/-- A `User` row (the fields the notes core reads: id and display name). -/
structure UserRec where
  id : Nat
  name : String
deriving DecidableEq

/-- A `Note` row. -/
structure NoteRec where
  id : Nat
  title : String
  description : String
  tags : List String
  visibility : Visibility
  authorId : Nat
deriving DecidableEq

/-- A `NoteVersion` row. -/
structure NoteVersionRec where
  noteId : Nat
  title : String
  description : String
  version : Nat
  createdBy : Nat
deriving DecidableEq

/-- A `NoteUser` share-grant row. -/
structure NoteUserRec where
  noteId : Nat
  userId : Nat
  permission : Permission
deriving DecidableEq

/-- A `Notification` row. -/
structure NotificationRec where
  userId : Nat
  ntype : NotificationType
  title : String
  message : String
  dataNoteId : Nat
  dataActorId : Nat
  read : Bool
deriving DecidableEq

/-- The relational store: one list of rows per table, in insertion order,
plus a counter supplying fresh note ids (the store's id generator). -/
structure DB where
  users : List UserRec
  notes : List NoteRec
  noteVersions : List NoteVersionRec
  noteUsers : List NoteUserRec
  notifications : List NotificationRec
  nextId : Nat
deriving DecidableEq

/-- The access check of `NotesService.findOne` (notes.service.ts:164-167):
`note.authorId === userId || note.visibility === 'PUBLIC' ||
 (note.visibility === 'SHARED' && note.noteUsers.some(s => s.userId === userId))`. -/
def hasAccess (db : DB) (note : NoteRec) (userId : Nat) : Bool :=
  note.authorId == userId ||
  note.visibility == .PUBLIC ||
  (note.visibility == .SHARED &&
    db.noteUsers.any (fun g => g.noteId == note.id && g.userId == userId))

/-- `NotesService.findOne` (notes.service.ts:139-174): look the note up by id,
throw `NotFound` when absent, `Forbidden` when present but inaccessible. -/
def findOne (db : DB) (id : Nat) (userId : Nat) : Except ApiError NoteRec :=
  match db.notes.find? (fun n => n.id == id) with
  | none => .error .notFound
  | some note =>
      if hasAccess db note userId then .ok note else .error .forbidden

/-- The access-control clause of the Prisma `where` used by
`NotesService.findAll` (notes.service.ts:76-90), repeated verbatim in
`advancedSearch` (notes.service.ts:491-506) and `getSearchSuggestions`
(notes.service.ts:570-585):
`OR: [{authorId: userId}, {visibility: 'PUBLIC'},
      {AND: [{visibility: 'SHARED'}, {noteUsers: {some: {userId}}}]}]`. -/
def findAllAccessClause (db : DB) (userId : Nat) (n : NoteRec) : Bool :=
  n.authorId == userId ||
  n.visibility == .PUBLIC ||
  (n.visibility == .SHARED &&
    db.noteUsers.any (fun g => g.noteId == n.id && g.userId == userId))

/-- The row filter of `NotesService.findAll` (notes.service.ts:73-101): the
access clause conjoined with the remaining optional filters (search text,
tags, visibility, author), which are abstracted as `extra`. -/
def findAllNotes (db : DB) (userId : Nat) (extra : NoteRec → Bool) : List NoteRec :=
  db.notes.filter (fun n => findAllAccessClause db userId n && extra n)

/-- The spec's Access Control Resolver contract, stated in the spec's own
words (§4.1): `canRead` holds iff the requester is the author, or the note is
`PUBLIC`, or the note is `SHARED` and a `NoteUser` grant exists for
`(note, requesterId)`.  Kept separate from the source-derived `hasAccess` and
`findAllAccessClause` so the two can be compared. -/
def canRead (db : DB) (note : NoteRec) (requesterId : Nat) : Prop :=
  requesterId = note.authorId ∨
  note.visibility = .PUBLIC ∨
  (note.visibility = .SHARED ∧
    ∃ g ∈ db.noteUsers, g.noteId = note.id ∧ g.userId = requesterId)

instance (db : DB) (note : NoteRec) (u : Nat) : Decidable (canRead db note u) := by
  unfold canRead; infer_instance

/-- `NotesService.shareNote` (notes.service.ts:276-334): access check via
`findOne`, author-only check, all-grantees-exist validation
(`findMany where id in userIds` compared by length), then in one
transaction: delete every `NoteUser` row of the note, bulk-insert one `VIEW`
row per requested grantee, and promote `PRIVATE` visibility to `SHARED`.
No notification is created anywhere in this method. -/
def shareNote (db : DB) (noteId : Nat) (userIds : List Nat) (userId : Nat) :
    Except ApiError DB :=
  match findOne db noteId userId with
  | .error e => .error e
  | .ok note =>
    if note.authorId != userId then .error .forbidden
    else
      let users := db.users.filter (fun r => userIds.contains r.id)
      if users.length != userIds.length then .error .badRequest
      else
        let db1 := { db with noteUsers := db.noteUsers.filter (fun g => g.noteId != noteId) }
        let db2 :=
          if userIds.length > 0 then
            { db1 with noteUsers :=
                db1.noteUsers ++ userIds.map (fun uid => ⟨noteId, uid, .VIEW⟩) }
          else db1
        let db3 :=
          if note.visibility == .PRIVATE then
            { db2 with notes := db2.notes.map (fun n =>
                if n.id == noteId then { n with visibility := .SHARED } else n) }
          else db2
        .ok db3

/-- `NotificationsService.createNoteSharedNotification`
(notifications.service.ts:113-128): inserts one `NOTE_SHARED` notification
row for the shared-with user.  Present in the codebase but never invoked by
`shareNote` or any other caller. -/
def createNoteSharedNotification (db : DB) (noteId : Nat) (noteTitle : String)
    (sharedWithUserId sharedByUserId : Nat) : DB :=
  let displayName :=
    ((db.users.find? (fun r => r.id == sharedByUserId)).map (fun r => r.name)).getD "Someone"
  { db with notifications := db.notifications ++
      [⟨sharedWithUserId, .NOTE_SHARED, "Note Shared",
        displayName ++ " shared a note \"" ++ noteTitle ++ "\" with you",
        noteId, sharedByUserId, false⟩] }

/-- C5 concrete state: author 1 owns note 10, previously shared with user 3. -/
def c5db : DB :=
  { users := [⟨1, "alice"⟩, ⟨2, "bob"⟩, ⟨3, "carol"⟩]
    notes := [⟨10, "T", "B", [], .SHARED, 1⟩]
    noteVersions := [⟨10, "T", "B", 1, 1⟩]
    noteUsers := [⟨10, 3, .VIEW⟩]
    notifications := []
    nextId := 11 }

/-- C5 expected state after `share([2])`: user 3's old grant is gone, user 2
holds the only grant. -/
def c5dbAfter : DB :=
  { users := [⟨1, "alice"⟩, ⟨2, "bob"⟩, ⟨3, "carol"⟩]
    notes := [⟨10, "T", "B", [], .SHARED, 1⟩]
    noteVersions := [⟨10, "T", "B", 1, 1⟩]
    noteUsers := [⟨10, 2, .VIEW⟩]
    notifications := []
    nextId := 11 }

/-- C6 concrete state: author 1 owns the private note 10; no grants, no
notifications. -/
def c6db : DB :=
  { users := [⟨1, "alice"⟩, ⟨2, "bob"⟩]
    notes := [⟨10, "T", "B", [], .PRIVATE, 1⟩]
    noteVersions := [⟨10, "T", "B", 1, 1⟩]
    noteUsers := []
    notifications := []
    nextId := 11 }

/-- C6 expected state after author 1 shares note 10 with user 2: the grant
and the visibility promotion happen, but no notification row appears. -/
def c6dbAfter : DB :=
  { users := [⟨1, "alice"⟩, ⟨2, "bob"⟩]
    notes := [⟨10, "T", "B", [], .SHARED, 1⟩]
    noteVersions := [⟨10, "T", "B", 1, 1⟩]
    noteUsers := [⟨10, 2, .VIEW⟩]
    notifications := []
    nextId := 11 }

/-- C8 concrete state: author 1 owns the private note 10; user 2 also
exists; no grants yet. -/
def c8db : DB :=
  { users := [⟨1, "alice"⟩, ⟨2, "bob"⟩]
    notes := [⟨10, "T", "B", [], .PRIVATE, 1⟩]
    noteVersions := [⟨10, "T", "B", 1, 1⟩]
    noteUsers := []
    notifications := []
    nextId := 11 }

/-- C8 state after author 1 shares note 10 with the list `[1]` (their own
id): the share succeeds and a grant row for the author exists. -/
def c8dbAfter : DB :=
  { users := [⟨1, "alice"⟩, ⟨2, "bob"⟩]
    notes := [⟨10, "T", "B", [], .SHARED, 1⟩]
    noteVersions := [⟨10, "T", "B", 1, 1⟩]
    noteUsers := [⟨10, 1, .VIEW⟩]
    notifications := []
    nextId := 11 }

/-- C10 concrete state: author 1 owns the private note 10, which currently
carries a grant for user 3. -/
def c10db : DB :=
  { users := [⟨1, "alice"⟩, ⟨3, "carol"⟩]
    notes := [⟨10, "T", "B", [], .PRIVATE, 1⟩]
    noteVersions := [⟨10, "T", "B", 1, 1⟩]
    noteUsers := [⟨10, 3, .VIEW⟩]
    notifications := []
    nextId := 11 }

/-- C10 state after author 1 shares note 10 with the empty list: every grant
is revoked, none is inserted, and the note is promoted to `SHARED`. -/
def c10dbAfter : DB :=
  { users := [⟨1, "alice"⟩, ⟨3, "carol"⟩]
    notes := [⟨10, "T", "B", [], .SHARED, 1⟩]
    noteVersions := [⟨10, "T", "B", 1, 1⟩]
    noteUsers := []
    notifications := []
    nextId := 11 }

/-- `CreateNoteDto` (create-note.dto.ts): title and description required,
tags and visibility optional. -/
structure CreateNoteDto where
  title : String
  description : String
  tags : Option (List String)
  visibility : Option Visibility
deriving DecidableEq

/-- `UpdateNoteDto` (update-note.dto.ts): every field optional. -/
structure UpdateNoteDto where
  title : Option String
  description : Option String
  tags : Option (List String)
  visibility : Option Visibility
deriving DecidableEq

/-- The versions recorded for a note, in insertion order (the `version`
field of each `NoteVersion` row whose `noteId` matches). -/
def versionNums (db : DB) (noteId : Nat) : List Nat :=
  (db.noteVersions.filter (fun v => v.noteId == noteId)).map (fun v => v.version)

/-- `findFirst where {noteId} orderBy version desc` followed by
`?.version || 0` (notes.service.ts:215-218, 391-394): the maximum recorded
version number of the note, 0 when it has no version rows (`|| 0` and
"no row" coincide because 0 is the only falsy `Nat`). -/
def latestVersionNum (db : DB) (noteId : Nat) : Nat :=
  (versionNums db noteId).foldr max 0

/-- `NotesService.create` (notes.service.ts:12-58): one transaction inserts
the `Note` row (tags default `[]`, visibility default `PRIVATE`) and the
initial `NoteVersion` numbered 1 with identical content.  The store's id
generator supplies the fresh id `db.nextId`. -/
def create (db : DB) (dto : CreateNoteDto) (userId : Nat) : DB :=
  let note : NoteRec :=
    ⟨db.nextId, dto.title, dto.description, dto.tags.getD [],
      dto.visibility.getD .PRIVATE, userId⟩
  { db with
      nextId := db.nextId + 1
      notes := db.notes ++ [note]
      noteVersions := db.noteVersions ++
        [⟨note.id, note.title, note.description, 1, userId⟩] }

/-- The version-creation condition of `NotesService.update`
(notes.service.ts:211-214): a field was supplied (`!== undefined`) and
differs from the persisted value. -/
def contentChanged (dto : UpdateNoteDto) (existingNote : NoteRec) : Bool :=
  (match dto.title with
   | some t => t != existingNote.title
   | none => false) ||
  (match dto.description with
   | some d => d != existingNote.description
   | none => false)

/-- `NotesService.update` (notes.service.ts:176-233): access check via
`findOne`, author-only check, then one transaction updates the note (each
absent field keeps the prior value, `??`) and, iff `contentChanged`, inserts
a `NoteVersion` carrying the post-update content numbered
`latestVersionNum + 1`. -/
def update (db : DB) (id : Nat) (dto : UpdateNoteDto) (userId : Nat) :
    Except ApiError DB :=
  match findOne db id userId with
  | .error e => .error e
  | .ok existingNote =>
    if existingNote.authorId != userId then .error .forbidden
    else
      let newTitle := dto.title.getD existingNote.title
      let newDescription := dto.description.getD existingNote.description
      let newTags := dto.tags.getD existingNote.tags
      let newVisibility := dto.visibility.getD existingNote.visibility
      let db1 := { db with notes := db.notes.map (fun n =>
          if n.id == id then
            { n with title := newTitle, description := newDescription,
                     tags := newTags, visibility := newVisibility }
          else n) }
      if contentChanged dto existingNote then
        .ok { db1 with noteVersions := db1.noteVersions ++
            [⟨id, newTitle, newDescription, latestVersionNum db1 id + 1, userId⟩] }
      else .ok db1

/-- `NotesService.restoreVersion` (notes.service.ts:350-408): access check
via `findOne`, author-only check, `NotFound` when no `NoteVersion` row
matches `(noteId, version)`; otherwise one transaction copies the target's
title/description onto the live note and inserts a fresh `NoteVersion` with
that content numbered `latestVersionNum + 1`. -/
def restoreVersion (db : DB) (noteId : Nat) (version : Nat) (userId : Nat) :
    Except ApiError DB :=
  match findOne db noteId userId with
  | .error e => .error e
  | .ok note =>
    if note.authorId != userId then .error .forbidden
    else
      match db.noteVersions.find? (fun w => w.noteId == noteId && w.version == version) with
      | none => .error .notFound
      | some targetVersion =>
        let db1 : DB := { db with notes := db.notes.map (fun n =>
            if n.id == noteId then
              { n with title := targetVersion.title,
                       description := targetVersion.description }
            else n) }
        .ok { db1 with noteVersions := db1.noteVersions ++
            [⟨noteId, targetVersion.title, targetVersion.description,
              latestVersionNum db1 noteId + 1, userId⟩] }

/-- A request against the notes service, for stating trace invariants. -/
inductive Op
  | createOp (dto : CreateNoteDto) (userId : Nat)
  | updateOp (id : Nat) (dto : UpdateNoteDto) (userId : Nat)
  | restoreOp (id : Nat) (version : Nat) (userId : Nat)
  | shareOp (id : Nat) (userIds : List Nat) (userId : Nat)

/-- Store semantics of one request: a failed request (thrown exception)
leaves the store unchanged, a successful one commits its transaction. -/
def applyOp (db : DB) : Op → DB
  | .createOp dto u => create db dto u
  | .updateOp id dto u =>
      match update db id dto u with
      | .ok db' => db'
      | .error _ => db
  | .restoreOp id v u =>
      match restoreVersion db id v u with
      | .ok db' => db'
      | .error _ => db
  | .shareOp id S u =>
      match shareNote db id S u with
      | .ok db' => db'
      | .error _ => db

/-- Well-formedness of the store: the id generator dominates every note id
and every version row's note reference (fresh ids are really fresh). -/
def WF (db : DB) : Prop :=
  (∀ n ∈ db.notes, n.id < db.nextId) ∧
  (∀ v ∈ db.noteVersions, v.noteId < db.nextId)

/-- The gap-free version invariant of a note: its recorded version numbers,
in insertion order, are exactly `1, 2, ..., n`. -/
def Inv (db : DB) (noteId : Nat) : Prop :=
  versionNums db noteId = List.range' 1 (versionNums db noteId).length

instance (db : DB) : Decidable (WF db) := by
  unfold WF; infer_instance

instance (db : DB) (noteId : Nat) : Decidable (Inv db noteId) := by
  unfold Inv; infer_instance

/-- The claim's wording of the version-creation condition: the supplied
title or description differs from the persisted value. -/
def suppliedContentDiffers (dto : UpdateNoteDto) (note : NoteRec) : Prop :=
  (∃ t, dto.title = some t ∧ t ≠ note.title) ∨
  (∃ d, dto.description = some d ∧ d ≠ note.description)

/-- C2 concrete state: author 1 owns note 10 at version 1. -/
def c2db : DB :=
  { users := [⟨1, "alice"⟩]
    notes := [⟨10, "T", "B", [], .PRIVATE, 1⟩]
    noteVersions := [⟨10, "T", "B", 1, 1⟩]
    noteUsers := []
    notifications := []
    nextId := 11 }

/-- C2 content-changing dto: only the description is supplied. -/
def c2dto : UpdateNoteDto := ⟨none, some "B2", none, none⟩

/-- C2 no-op dto: supplies the identical title plus a tag change. -/
def c2dtoNoop : UpdateNoteDto := ⟨some "T", none, some ["work"], some .PUBLIC⟩

/-- C2 state after the content update: version 2 recorded. -/
def c2dbAfter : DB :=
  { users := [⟨1, "alice"⟩]
    notes := [⟨10, "T", "B2", [], .PRIVATE, 1⟩]
    noteVersions := [⟨10, "T", "B", 1, 1⟩, ⟨10, "T", "B2", 2, 1⟩]
    noteUsers := []
    notifications := []
    nextId := 11 }

/-- C2 state after the no-op update: tags/visibility changed, versions not. -/
def c2dbAfterNoop : DB :=
  { users := [⟨1, "alice"⟩]
    notes := [⟨10, "T", "B", ["work"], .PUBLIC, 1⟩]
    noteVersions := [⟨10, "T", "B", 1, 1⟩]
    noteUsers := []
    notifications := []
    nextId := 11 }

/-- C3 concrete state: author 1 owns note 10, edited once (versions 1, 2). -/
def c3db : DB :=
  { users := [⟨1, "alice"⟩]
    notes := [⟨10, "T2", "B2", [], .PRIVATE, 1⟩]
    noteVersions := [⟨10, "T", "B", 1, 1⟩, ⟨10, "T2", "B2", 2, 1⟩]
    noteUsers := []
    notifications := []
    nextId := 11 }

/-- C3 state after restoring version 1: the live note carries version 1's
content and a fresh version 3 records the restoration. -/
def c3dbAfter : DB :=
  { users := [⟨1, "alice"⟩]
    notes := [⟨10, "T", "B", [], .PRIVATE, 1⟩]
    noteVersions := [⟨10, "T", "B", 1, 1⟩, ⟨10, "T2", "B2", 2, 1⟩,
      ⟨10, "T", "B", 3, 1⟩]
    noteUsers := []
    notifications := []
    nextId := 11 }

/-- C4 initial store: one user, no notes; the id generator will hand out
id 100 first. -/
def c4db0 : DB :=
  { users := [⟨1, "alice"⟩]
    notes := []
    noteVersions := []
    noteUsers := []
    notifications := []
    nextId := 100 }

/-- C4 scenario trace: create, content update, restore of version 1 — all by
author 1. -/
def c4ops : List Op :=
  [.createOp ⟨"T", "B", none, none⟩ 1,
   .updateOp 100 ⟨none, some "B2", none, none⟩ 1,
   .restoreOp 100 1 1]

/-- C4 final store of the scenario trace. -/
def c4final : DB := c4ops.foldl applyOp c4db0

/-- JS `Map.set` on the gateway's `connectedUsers : Map<userId, socketId>`
(websocket.gateway.ts:90): update the existing entry in place when the key
is present, append otherwise. -/
def mapSet (m : List (Nat × Nat)) (k v : Nat) : List (Nat × Nat) :=
  if m.any (fun p => p.1 == k) then
    m.map (fun p => if p.1 == k then (k, v) else p)
  else m ++ [(k, v)]

/-- JS `Map.delete` (websocket.gateway.ts:112): remove the key's entry. -/
def mapDelete (m : List (Nat × Nat)) (k : Nat) : List (Nat × Nat) :=
  m.filter (fun p => p.1 != k)

/-- JS `Map.get` (used by `isUserOnline`, websocket.gateway.ts:185-188). -/
def mapGet (m : List (Nat × Nat)) (k : Nat) : Option Nat :=
  (m.find? (fun p => p.1 == k)).map (fun p => p.2)

/-- `WebSocketGateway.handleConnection` (websocket.gateway.ts:59-106): the
bearer token is verified and resolved to a user (`auth = some userId`), or
fails (`none`: token missing/invalid, or no such user), in which case the
socket is disconnected and nothing is registered.  On success the user is
registered under the connecting socket — overwriting any earlier
registration — and the socket's `userId` field is set. -/
def handleConnection (reg : List (Nat × Nat)) (auth : Option Nat)
    (socketId : Nat) : List (Nat × Nat) × Option Nat :=
  match auth with
  | none => (reg, none)
  | some userId => (mapSet reg userId socketId, some userId)

/-- `WebSocketGateway.handleDisconnect` (websocket.gateway.ts:109-116): if
the disconnecting socket carries a `userId`, that identity's registry entry
is deleted — unconditionally, with no check that the socket being closed is
the one currently registered for the identity. -/
def handleDisconnect (reg : List (Nat × Nat)) (clientUserId : Option Nat) :
    List (Nat × Nat) :=
  match clientUserId with
  | none => reg
  | some userId => mapDelete reg userId

/-- A connection-lifecycle event of the gateway: a successful authenticated
connect of user `u` on socket `s`, or the disconnect of socket `s` that had
authenticated as `u`. -/
inductive WsEvent
  | connect (u s : Nat)
  | disconnect (u s : Nat)
deriving DecidableEq

/-- The registry transition of one event, through the gateway handlers. -/
def stepEvent (reg : List (Nat × Nat)) : WsEvent → List (Nat × Nat)
  | .connect u s => (handleConnection reg (some u) s).1
  | .disconnect u _ => handleDisconnect reg (some u)

/-- The registry after a trace of events, starting empty. -/
def runEvents (tr : List WsEvent) : List (Nat × Nat) :=
  tr.foldl stepEvent []

/-- The socket of user `u`'s most recent connect in a trace. -/
def mostRecentConnect (tr : List WsEvent) (u : Nat) : Option Nat :=
  tr.foldl (fun acc e =>
    match e with
    | .connect u2 s => if u2 == u then some s else acc
    | .disconnect _ _ => acc) none

lemma hasAccess_iff_canRead (db : DB) (note : NoteRec) (u : Nat) :
    hasAccess db note u = true ↔ canRead db note u := by
  simp only [hasAccess, canRead, Bool.or_eq_true, Bool.and_eq_true, beq_iff_eq,
    List.any_eq_true]
  constructor
  · rintro ((h | h) | ⟨h, g, hg, h1, h2⟩)
    · exact Or.inl h.symm
    · exact Or.inr (Or.inl h)
    · exact Or.inr (Or.inr ⟨h, g, hg, h1, h2⟩)
  · rintro (h | h | ⟨h, g, hg, h1, h2⟩)
    · exact Or.inl (Or.inl h.symm)
    · exact Or.inl (Or.inr h)
    · exact Or.inr ⟨h, g, hg, h1, h2⟩

lemma findAllAccessClause_iff_canRead (db : DB) (n : NoteRec) (u : Nat) :
    findAllAccessClause db u n = true ↔ canRead db n u :=
  hasAccess_iff_canRead db n u

/-- C1.  Read eligibility as used by the single-note read (`findOne`) and by
the list/search row filter (`findAllNotes`) holds iff the requester is the
author, the note is `PUBLIC`, or the note is `SHARED` with a grant for the
requester (`canRead`); in every other case `findOne` denies access and the
filter excludes the note. -/
theorem canRead_characterizes_read_access (db : DB) (u : Nat) :
    (∀ id note, db.notes.find? (fun n => n.id == id) = some note →
      ((findOne db id u = .ok note ↔ canRead db note u) ∧
       (findOne db id u = .error .forbidden ↔ ¬ canRead db note u))) ∧
    (∀ (extra : NoteRec → Bool) (n : NoteRec),
      n ∈ findAllNotes db u extra ↔ n ∈ db.notes ∧ canRead db n u ∧ extra n = true) := by
  constructor
  · intro id note hfind
    by_cases hc : canRead db note u
    · have hb : hasAccess db note u = true := (hasAccess_iff_canRead db note u).mpr hc
      simp [findOne, hfind, hb, hc]
    · have hb : hasAccess db note u = false := by
        cases hh : hasAccess db note u
        · rfl
        · exact absurd ((hasAccess_iff_canRead db note u).mp hh) hc
      simp [findOne, hfind, hb, hc]
  · intro extra n
    simp only [findAllNotes, List.mem_filter, Bool.and_eq_true,
      findAllAccessClause_iff_canRead, and_assoc]

/-- C1 witness: a concrete 2-note store; the shared note is readable by the
grantee and by the author, and listed for the grantee, while an outsider is
rejected. -/
theorem canRead_characterizes_read_access_witness :
    let db : DB :=
      { users := [⟨1, "alice"⟩, ⟨2, "bob"⟩, ⟨3, "carol"⟩]
        notes := [⟨10, "T", "B", [], .SHARED, 1⟩]
        noteVersions := [⟨10, "T", "B", 1, 1⟩]
        noteUsers := [⟨10, 2, .VIEW⟩]
        notifications := []
        nextId := 11 }
    findOne db 10 2 = .ok ⟨10, "T", "B", [], .SHARED, 1⟩ ∧
    findOne db 10 3 = .error .forbidden := by
  intro db
  have h := canRead_characterizes_read_access db 2
  have h3 := canRead_characterizes_read_access db 3
  refine ⟨(h.1 10 ⟨10, "T", "B", [], .SHARED, 1⟩ (by decide)).1.mpr (by decide),
          (h3.1 10 ⟨10, "T", "B", [], .SHARED, 1⟩ (by decide)).2.mpr (by decide)⟩

/-- C7.  A single-note read of an unresolvable id fails with `NotFound`; a
read of an existing but unreadable note fails with `Forbidden`.  The two
failure kinds are produced exactly on those two disjoint conditions. -/
theorem findOne_notFound_vs_forbidden (db : DB) (id u : Nat) :
    (db.notes.find? (fun n => n.id == id) = none →
      findOne db id u = .error .notFound) ∧
    (∀ note, db.notes.find? (fun n => n.id == id) = some note →
      ¬ canRead db note u → findOne db id u = .error .forbidden) := by
  constructor
  · intro hnone
    simp [findOne, hnone]
  · intro note hfind hc
    have hb : hasAccess db note u = false := by
      cases hh : hasAccess db note u
      · rfl
      · exact absurd ((hasAccess_iff_canRead db note u).mp hh) hc
    simp [findOne, hfind, hb]

/-- C7 witness: user 3 reading a nonexistent id 99 gets `NotFound`; reading
the existing `PRIVATE` note 10 of author 1 gets `Forbidden`. -/
theorem findOne_notFound_vs_forbidden_witness :
    let db : DB :=
      { users := [⟨1, "alice"⟩, ⟨3, "dave"⟩]
        notes := [⟨10, "T", "B", [], .PRIVATE, 1⟩]
        noteVersions := [⟨10, "T", "B", 1, 1⟩]
        noteUsers := []
        notifications := []
        nextId := 11 }
    findOne db 99 3 = .error .notFound ∧ findOne db 10 3 = .error .forbidden := by
  intro db
  refine ⟨(findOne_notFound_vs_forbidden db 99 3).1 (by decide),
          (findOne_notFound_vs_forbidden db 10 3).2 ⟨10, "T", "B", [], .PRIVATE, 1⟩
            (by decide) (by decide)⟩

/-- Unfolding lemma for a successful `shareNote`: recovers the found note,
the author check, the validation, and the exact shape of every table of the
resulting state. -/
lemma shareNote_ok_elim {db : DB} {noteId : Nat} {S : List Nat} {u : Nat} {db' : DB}
    (h : shareNote db noteId S u = .ok db') :
    ∃ note, db.notes.find? (fun n => n.id == noteId) = some note ∧
      note.authorId = u ∧
      (db.users.filter (fun r => S.contains r.id)).length = S.length ∧
      db'.users = db.users ∧
      db'.noteVersions = db.noteVersions ∧
      db'.notifications = db.notifications ∧
      db'.nextId = db.nextId ∧
      db'.noteUsers = db.noteUsers.filter (fun g => g.noteId != noteId) ++
        S.map (fun uid => ⟨noteId, uid, .VIEW⟩) ∧
      db'.notes = (if note.visibility = .PRIVATE then
          db.notes.map (fun n => if n.id == noteId then { n with visibility := .SHARED } else n)
        else db.notes) := by
  unfold shareNote at h
  cases hf : findOne db noteId u with
  | error e => rw [hf] at h; exact absurd h (by simp)
  | ok note =>
    rw [hf] at h
    dsimp only at h
    have hfind : db.notes.find? (fun n => n.id == noteId) = some note := by
      unfold findOne at hf
      cases hq : db.notes.find? (fun n => n.id == noteId) with
      | none => rw [hq] at hf; exact absurd hf (by simp)
      | some m =>
        rw [hq] at hf
        dsimp only at hf
        by_cases hacc : hasAccess db m u = true
        · rw [if_pos hacc] at hf
          have hm : m = note := by injection hf
          rw [hm]
        · rw [if_neg hacc] at hf; exact absurd hf (by simp)
    refine ⟨note, hfind, ?_⟩
    by_cases hauth : note.authorId = u
    · simp only [hauth, bne_self_eq_false, Bool.false_eq_true, if_false] at h
      by_cases hval : (db.users.filter (fun r => S.contains r.id)).length = S.length
      · simp only [hval, bne_self_eq_false, Bool.false_eq_true, if_false] at h
        refine ⟨hauth, hval, ?_⟩
        by_cases hS : S.length > 0
        · by_cases hvis : note.visibility = Visibility.PRIVATE
          · simp only [hS, if_true, hvis, beq_self_eq_true, if_true] at h
            cases h
            simp [hvis]
          · have hb : (note.visibility == Visibility.PRIVATE) = false := by
              simp [hvis]
            simp only [hS, if_true, hb, Bool.false_eq_true, if_false] at h
            cases h
            simp [hvis]
        · have hS0 : S = [] := List.length_eq_zero.mp (Nat.eq_zero_of_not_pos hS)
          subst hS0
          by_cases hvis : note.visibility = Visibility.PRIVATE
          · simp only [List.length_nil, gt_iff_lt, Nat.lt_irrefl, if_false, hvis,
              beq_self_eq_true, if_true] at h
            cases h
            simp [hvis]
          · have hb : (note.visibility == Visibility.PRIVATE) = false := by
              simp [hvis]
            simp only [List.length_nil, gt_iff_lt, Nat.lt_irrefl, if_false, hb,
              Bool.false_eq_true] at h
            cases h
            simp [hvis]
      · have hb : ((db.users.filter (fun r => S.contains r.id)).length != S.length) = true := by
          simpa using hval
        rw [if_pos hb] at h
        exact absurd h (by simp)
    · have hb : (note.authorId != u) = true := by simpa using hauth
      rw [if_pos hb] at h
      exact absurd h (by simp)

/-- The grant rows of a note after the delete-then-insert of `shareNote`,
filtered back to the note, are exactly the freshly inserted rows. -/
lemma grants_filter_eq (l : List NoteUserRec) (S : List Nat) (noteId : Nat) :
    ((l.filter (fun g => g.noteId != noteId) ++
        S.map (fun uid => (⟨noteId, uid, .VIEW⟩ : NoteUserRec))).filter
      (fun g => g.noteId == noteId)) =
    S.map (fun uid => (⟨noteId, uid, .VIEW⟩ : NoteUserRec)) := by
  rw [List.filter_append]
  have h1 : (l.filter (fun g => g.noteId != noteId)).filter
      (fun g => g.noteId == noteId) = [] := by
    induction l with
    | nil => rfl
    | cons a t ih =>
      by_cases h : a.noteId = noteId <;> simp [List.filter_cons, h, ih]
  have h2 : (S.map (fun uid => (⟨noteId, uid, .VIEW⟩ : NoteUserRec))).filter
      (fun g => g.noteId == noteId) =
      S.map (fun uid => (⟨noteId, uid, .VIEW⟩ : NoteUserRec)) := by
    apply List.filter_eq_self.mpr
    intro a ha
    obtain ⟨uid, _, rfl⟩ := List.mem_map.mp ha
    simp
  rw [h1, h2, List.nil_append]

/-- Grant rows of other notes pass through `shareNote` untouched. -/
lemma grants_filter_ne (l : List NoteUserRec) (S : List Nat) (noteId : Nat) :
    ((l.filter (fun g => g.noteId != noteId) ++
        S.map (fun uid => (⟨noteId, uid, .VIEW⟩ : NoteUserRec))).filter
      (fun g => g.noteId != noteId)) =
    l.filter (fun g => g.noteId != noteId) := by
  rw [List.filter_append]
  have h1 : (l.filter (fun g => g.noteId != noteId)).filter
      (fun g => g.noteId != noteId) = l.filter (fun g => g.noteId != noteId) :=
    List.filter_eq_self.mpr (fun a ha => (List.mem_filter.mp ha).2)
  have h2 : (S.map (fun uid => (⟨noteId, uid, .VIEW⟩ : NoteUserRec))).filter
      (fun g => g.noteId != noteId) = [] := by
    apply List.filter_eq_nil_iff.mpr
    intro a ha
    obtain ⟨uid, _, rfl⟩ := List.mem_map.mp ha
    simp
  rw [h1, h2, List.append_nil]

/-- A successful share forces the requested grantee list to be duplicate-free
(Prisma's `findMany where id in userIds` returns each matching user row once,
so the `users.length !== userIds.length` validation rejects duplicates). -/
lemma shareNote_ok_nodup {db : DB} {noteId : Nat} {S : List Nat} {u : Nat} {db' : DB}
    (hN : (db.users.map (fun r => r.id)).Nodup)
    (h : shareNote db noteId S u = .ok db') : S.Nodup := by
  obtain ⟨note, _, _, hval, _⟩ := shareNote_ok_elim h
  have hLnodup : ((db.users.filter (fun r => S.contains r.id)).map
      (fun r => r.id)).Nodup :=
    List.Nodup.sublist ((List.filter_sublist _).map _) hN
  have hLsub : ∀ x ∈ (db.users.filter (fun r => S.contains r.id)).map
      (fun r => r.id), x ∈ S := by
    intro x hx
    obtain ⟨r, hr, rfl⟩ := List.mem_map.mp hx
    have hc := (List.mem_filter.mp hr).2
    simpa using hc
  have hLlen : ((db.users.filter (fun r => S.contains r.id)).map
      (fun r => r.id)).length = S.length := by simpa using hval
  have h1 : ((db.users.filter (fun r => S.contains r.id)).map
      (fun r => r.id)).toFinset.card = S.length := by
    rw [List.toFinset_card_of_nodup hLnodup, hLlen]
  have h2 : ((db.users.filter (fun r => S.contains r.id)).map
      (fun r => r.id)).toFinset ⊆ S.toFinset := by
    intro x hx
    exact List.mem_toFinset.mpr (hLsub x (List.mem_toFinset.mp hx))
  have h3 : S.length ≤ S.toFinset.card := h1 ▸ Finset.card_le_card h2
  have h4 : S.toFinset.card = S.dedup.length := List.card_toFinset S
  have h5 : S.dedup.length ≤ S.length := (List.dedup_sublist S).length_le
  have h6 : S.dedup = S := (List.dedup_sublist S).eq_of_length (by omega)
  exact List.dedup_eq_self.mp h6

/-- C5.  A successful share fully replaces the note's grant set: afterwards
the `NoteUser` rows of the note are exactly one `VIEW` grant per member of
the requested list (which success forces to be duplicate-free), grants of
other notes are untouched, and consequently `share(S1)` followed by
`share(S2)` leaves the same grant set as `share(S2)` alone. -/
theorem shareNote_full_replace :
    (∀ db noteId S u db', shareNote db noteId S u = .ok db' →
      db'.noteUsers.filter (fun g => g.noteId == noteId) =
        S.map (fun uid => (⟨noteId, uid, .VIEW⟩ : NoteUserRec)) ∧
      db'.noteUsers.filter (fun g => g.noteId != noteId) =
        db.noteUsers.filter (fun g => g.noteId != noteId) ∧
      ((db.users.map (fun r => r.id)).Nodup → S.Nodup)) ∧
    (∀ db noteId S1 S2 u db1 db2 db2',
      shareNote db noteId S1 u = .ok db1 →
      shareNote db1 noteId S2 u = .ok db2 →
      shareNote db noteId S2 u = .ok db2' →
      db2.noteUsers.filter (fun g => g.noteId == noteId) =
        db2'.noteUsers.filter (fun g => g.noteId == noteId)) := by
  have main : ∀ db noteId S u db', shareNote db noteId S u = .ok db' →
      db'.noteUsers.filter (fun g => g.noteId == noteId) =
        S.map (fun uid => (⟨noteId, uid, .VIEW⟩ : NoteUserRec)) ∧
      db'.noteUsers.filter (fun g => g.noteId != noteId) =
        db.noteUsers.filter (fun g => g.noteId != noteId) ∧
      ((db.users.map (fun r => r.id)).Nodup → S.Nodup) := by
    intro db noteId S u db' h
    obtain ⟨note, _, _, _, _, _, _, _, hgr, _⟩ := shareNote_ok_elim h
    refine ⟨?_, ?_, fun hN => shareNote_ok_nodup hN h⟩
    · rw [hgr]; exact grants_filter_eq _ _ _
    · rw [hgr]; exact grants_filter_ne _ _ _
  refine ⟨main, ?_⟩
  intro db noteId S1 S2 u db1 db2 db2' _ h2 h2'
  rw [(main db1 noteId S2 u db2 h2).1, (main db noteId S2 u db2' h2').1]

/-- C5 witness: re-sharing note 10 with `[2]` replaces the previous grant for
user 3 by the single grant for user 2. -/
theorem shareNote_full_replace_witness :
    shareNote c5db 10 [2] 1 = .ok c5dbAfter ∧
    c5dbAfter.noteUsers.filter (fun g => g.noteId == 10) = [⟨10, 2, .VIEW⟩] ∧
    c5dbAfter.noteUsers.filter (fun g => g.noteId != 10) =
      c5db.noteUsers.filter (fun g => g.noteId != 10) := by
  have h : shareNote c5db 10 [2] 1 = .ok c5dbAfter := by rfl
  have hm := (shareNote_full_replace.1 c5db 10 [2] 1 c5dbAfter h)
  exact ⟨h, hm.1.trans (by rfl), hm.2.1⟩

/-- C6.  The code of `shareNote` creates no notification row at all: the
`notifications` table is unchanged by every successful share.  (The helper
`createNoteSharedNotification` exists in `NotificationsService` but has no
caller.) -/
theorem shareNote_creates_no_notification (db : DB) (noteId : Nat) (S : List Nat)
    (u : Nat) (db' : DB) (h : shareNote db noteId S u = .ok db') :
    db'.notifications = db.notifications ∧
    db'.notifications.filter (fun m => m.ntype == .NOTE_SHARED) =
      db.notifications.filter (fun m => m.ntype == .NOTE_SHARED) := by
  obtain ⟨note, _, _, _, _, _, hnotif, _⟩ := shareNote_ok_elim h
  exact ⟨hnotif, by rw [hnotif]⟩

/-- C6 witness (the failing input of the bug): author 1 shares note 10 with
user 2; the share succeeds yet zero `NOTE_SHARED` rows exist afterwards,
where the spec requires exactly one for user 2. -/
theorem shareNote_creates_no_notification_witness :
    shareNote c6db 10 [2] 1 = .ok c6dbAfter ∧
    c6dbAfter.notifications = c6db.notifications ∧
    c6dbAfter.notifications.filter (fun m => m.ntype == .NOTE_SHARED) = [] := by
  have h : shareNote c6db 10 [2] 1 = .ok c6dbAfter := by rfl
  have hm := shareNote_creates_no_notification c6db 10 [2] 1 c6dbAfter h
  exact ⟨h, hm.1, hm.1.trans (by rfl)⟩

/-- `find?` by id commutes with the visibility-promoting map of `shareNote`
(the map never changes the id the predicate inspects). -/
lemma find?_visibility_map (l : List NoteRec) (noteId : Nat) (note : NoteRec)
    (hfind : l.find? (fun n => n.id == noteId) = some note) :
    (l.map (fun n => if n.id == noteId then { n with visibility := Visibility.SHARED }
        else n)).find? (fun n => n.id == noteId) =
      some { note with visibility := Visibility.SHARED } := by
  induction l with
  | nil => simp at hfind
  | cons a t ih =>
    by_cases h : (a.id == noteId) = true
    · have he : a.id = noteId := by simpa using h
      simp only [List.find?_cons, h] at hfind
      have ha : a = note := by injection hfind
      subst ha
      simp [List.find?_cons, he]
    · have h' : (a.id == noteId) = false := by simpa using h
      have he : ¬ a.id = noteId := by simpa using h'
      simp only [List.find?_cons, h'] at hfind
      simp only [List.map_cons, h', Bool.false_eq_true, if_false, List.find?_cons]
      exact ih hfind

/-- C8 counterexample: the Sharing Manager does create a grant for the
note's own author — author 1 sharing note 10 with the list `[1]` succeeds
and leaves a `NoteUser` row whose user is the author. -/
theorem shareNote_self_grant_counterexample :
    shareNote c8db 10 [1] 1 = .ok c8dbAfter ∧
    NoteUserRec.mk 10 1 .VIEW ∈ c8dbAfter.noteUsers ∧
    (c8dbAfter.notes.find? (fun n => n.id == 10)).map (fun n => n.authorId) =
      some 1 := by
  exact ⟨rfl, by decide, by decide⟩

/-- C8 amended: a successful share replaces the note's grants with exactly
the listed grantees, so a grant row for the requesting author exists
afterwards iff the author's own id is in the grantee list — `shareNote`
performs no author filtering. -/
theorem shareNote_author_grant_iff (db : DB) (noteId : Nat) (S : List Nat)
    (u : Nat) (db' : DB) (h : shareNote db noteId S u = .ok db') :
    (∃ g ∈ db'.noteUsers, g.noteId = noteId ∧ g.userId = u) ↔ u ∈ S := by
  obtain ⟨note, _, _, _, _, _, _, _, hgr, _⟩ := shareNote_ok_elim h
  constructor
  · rintro ⟨g, hg, hid, hu⟩
    rw [hgr] at hg
    rcases List.mem_append.mp hg with hx | hx
    · have hne := (List.mem_filter.mp hx).2
      simp [hid] at hne
    · obtain ⟨uid, hus, rfl⟩ := List.mem_map.mp hx
      simpa [← hu] using hus
  · intro hu
    refine ⟨⟨noteId, u, .VIEW⟩, ?_, rfl, rfl⟩
    rw [hgr]
    exact List.mem_append_right _ (List.mem_map.mpr ⟨u, hu, rfl⟩)

/-- C8 amended witness: in the concrete `[1]` self-share, the resulting
state holds a grant row for author 1 on note 10. -/
theorem shareNote_author_grant_iff_witness :
    c8dbAfter.noteUsers.any (fun g => g.noteId == 10 && g.userId == 1) = true := by
  have h := (shareNote_author_grant_iff c8db 10 [1] 1 c8dbAfter (by rfl)).mpr (by decide)
  obtain ⟨g, hg, h1, h2⟩ := h
  exact List.any_eq_true.mpr ⟨g, hg, by simp [h1, h2]⟩

/-- C10.  A share by the author with the empty grantee list succeeds (the
all-users-exist validation passes vacuously), deletes every grant of the
note while inserting none, still promotes `PRIVATE` to `SHARED`, and leaves
a non-`PRIVATE` note's row unchanged — so a note with zero grants can be in
the `SHARED` state. -/
theorem shareNote_empty_grantees (db : DB) (noteId u : Nat) (note : NoteRec)
    (hfind : db.notes.find? (fun n => n.id == noteId) = some note)
    (hauth : note.authorId = u) :
    ∃ db', shareNote db noteId [] u = .ok db' ∧
      db'.noteUsers.filter (fun g => g.noteId == noteId) = [] ∧
      db'.noteUsers.filter (fun g => g.noteId != noteId) =
        db.noteUsers.filter (fun g => g.noteId != noteId) ∧
      (note.visibility = .PRIVATE →
        db'.notes.find? (fun n => n.id == noteId) =
          some { note with visibility := .SHARED }) ∧
      (note.visibility ≠ .PRIVATE → db'.notes = db.notes) := by
  have hacc : hasAccess db note u = true := by simp [hasAccess, hauth]
  have hfo : findOne db noteId u = .ok note := by
    unfold findOne
    rw [hfind]
    dsimp only
    rw [if_pos hacc]
  have hflt : db.users.filter (fun r => ([] : List Nat).contains r.id) = [] :=
    List.filter_eq_nil_iff.mpr (by intro a _; simp)
  have hfe : (db.noteUsers.filter (fun g => g.noteId != noteId)).filter
      (fun g => g.noteId == noteId) = [] := by
    have h := grants_filter_eq db.noteUsers [] noteId
    simp only [List.map_nil, List.append_nil] at h
    exact h
  have hfn : (db.noteUsers.filter (fun g => g.noteId != noteId)).filter
      (fun g => g.noteId != noteId) = db.noteUsers.filter (fun g => g.noteId != noteId) := by
    have h := grants_filter_ne db.noteUsers [] noteId
    simp only [List.map_nil, List.append_nil] at h
    exact h
  by_cases hvis : note.visibility = Visibility.PRIVATE
  · refine ⟨{ db with
        noteUsers := db.noteUsers.filter (fun g => g.noteId != noteId),
        notes := db.notes.map (fun n =>
          if n.id == noteId then { n with visibility := .SHARED } else n) },
      ?_, hfe, hfn, fun _ => find?_visibility_map db.notes noteId note hfind,
      fun hnv => absurd hvis hnv⟩
    unfold shareNote
    rw [hfo]
    dsimp only
    simp only [hauth, bne_self_eq_false, Bool.false_eq_true, if_false, hflt,
      List.length_nil, gt_iff_lt, Nat.lt_irrefl, hvis, beq_self_eq_true, if_true]
  · refine ⟨{ db with
        noteUsers := db.noteUsers.filter (fun g => g.noteId != noteId) },
      ?_, hfe, hfn, fun hv => absurd hv hvis, fun _ => rfl⟩
    have hb : (note.visibility == Visibility.PRIVATE) = false := by simp [hvis]
    unfold shareNote
    rw [hfo]
    dsimp only
    simp only [hauth, bne_self_eq_false, Bool.false_eq_true, if_false, hflt,
      List.length_nil, gt_iff_lt, Nat.lt_irrefl, hb]

/-- C10 witness: sharing the private note 10 (with an existing grant for
user 3) with the empty list succeeds, leaves zero grants, and the note is
`SHARED`. -/
theorem shareNote_empty_grantees_witness :
    shareNote c10db 10 [] 1 = .ok c10dbAfter ∧
    c10dbAfter.noteUsers.filter (fun g => g.noteId == 10) = [] ∧
    c10dbAfter.notes.find? (fun n => n.id == 10) =
      some ⟨10, "T", "B", [], .SHARED, 1⟩ := by
  obtain ⟨db', h1, h2, h3, h4, h5⟩ :=
    shareNote_empty_grantees c10db 10 1 ⟨10, "T", "B", [], .PRIVATE, 1⟩
      (by rfl) (by rfl)
  have he : db' = c10dbAfter := by
    have hc : shareNote c10db 10 [] 1 = .ok c10dbAfter := by rfl
    rw [h1] at hc
    injection hc
  subst he
  exact ⟨h1, h2, h4 (by decide)⟩

lemma le_foldr_max (l : List Nat) (x : Nat) (h : x ∈ l) : x ≤ l.foldr max 0 := by
  induction l with
  | nil => cases h
  | cons a t ih =>
    rcases List.mem_cons.mp h with rfl | h
    · exact le_max_left _ _
    · exact le_trans (ih h) (le_max_right _ _)

lemma foldr_max_le (l : List Nat) (b : Nat) (h : ∀ x ∈ l, x ≤ b) :
    l.foldr max 0 ≤ b := by
  induction l with
  | nil => exact Nat.zero_le b
  | cons a t ih =>
    exact max_le (h a (by simp)) (ih (fun x hx => h x (List.mem_cons_of_mem a hx)))

lemma foldr_max_range' (n : Nat) : (List.range' 1 n).foldr max 0 = n := by
  cases n with
  | zero => rfl
  | succ m =>
    apply le_antisymm
    · apply foldr_max_le
      intro x hx
      obtain ⟨i, hi, rfl⟩ := List.mem_range'.mp hx
      omega
    · apply le_foldr_max
      exact List.mem_range'.mpr ⟨m, by omega, by omega⟩

/-- Under the gap-free invariant the maximum recorded version equals the
count of recorded versions. -/
lemma latestVersionNum_of_inv {db : DB} {noteId : Nat} (h : Inv db noteId) :
    latestVersionNum db noteId = (versionNums db noteId).length := by
  calc latestVersionNum db noteId
      = (versionNums db noteId).foldr max 0 := rfl
    _ = (List.range' 1 (versionNums db noteId).length).foldr max 0 := by
        conv_lhs => rw [h]
    _ = (versionNums db noteId).length := foldr_max_range' _

lemma findOne_ok_elim {db : DB} {id u : Nat} {note : NoteRec}
    (h : findOne db id u = .ok note) :
    db.notes.find? (fun n => n.id == id) = some note := by
  unfold findOne at h
  cases hq : db.notes.find? (fun n => n.id == id) with
  | none => rw [hq] at h; exact absurd h (by simp)
  | some m =>
    rw [hq] at h
    dsimp only at h
    by_cases hacc : hasAccess db m u = true
    · rw [if_pos hacc] at h
      have hm : m = note := by injection h
      rw [hm]
    · rw [if_neg hacc] at h; exact absurd h (by simp)

/-- The code's Boolean version-creation condition coincides with the claim's
wording. -/
lemma contentChanged_iff (dto : UpdateNoteDto) (note : NoteRec) :
    contentChanged dto note = true ↔ suppliedContentDiffers dto note := by
  unfold contentChanged suppliedContentDiffers
  cases ht : dto.title <;> cases hd : dto.description <;>
    simp [bne_iff_ne]

/-- Unfolding lemma for a successful `update`: recovers the found note, the
author check, and the exact shape of the resulting state, version insertion
included. -/
lemma update_ok_elim {db : DB} {id : Nat} {dto : UpdateNoteDto} {u : Nat} {db' : DB}
    (h : update db id dto u = .ok db') :
    ∃ note, db.notes.find? (fun n => n.id == id) = some note ∧
      note.authorId = u ∧
      db'.users = db.users ∧
      db'.nextId = db.nextId ∧
      db'.noteUsers = db.noteUsers ∧
      db'.notifications = db.notifications ∧
      db'.notes = db.notes.map (fun n =>
        if n.id == id then
          { n with title := dto.title.getD note.title,
                   description := dto.description.getD note.description,
                   tags := dto.tags.getD note.tags,
                   visibility := dto.visibility.getD note.visibility }
        else n) ∧
      (contentChanged dto note = true →
        db'.noteVersions = db.noteVersions ++
          [⟨id, dto.title.getD note.title, dto.description.getD note.description,
            latestVersionNum db id + 1, u⟩]) ∧
      (contentChanged dto note = false → db'.noteVersions = db.noteVersions) := by
  unfold update at h
  cases hf : findOne db id u with
  | error e => rw [hf] at h; exact absurd h (by simp)
  | ok note =>
    rw [hf] at h
    dsimp only at h
    refine ⟨note, findOne_ok_elim hf, ?_⟩
    by_cases hauth : note.authorId = u
    · simp only [hauth, bne_self_eq_false, Bool.false_eq_true, if_false] at h
      cases hcc : contentChanged dto note with
      | true =>
        rw [if_pos hcc] at h
        cases h
        exact ⟨hauth, rfl, rfl, rfl, rfl, rfl, fun _ => rfl,
          fun hc => absurd hc (by simp)⟩
      | false =>
        rw [if_neg (by simp [hcc])] at h
        cases h
        exact ⟨hauth, rfl, rfl, rfl, rfl, rfl,
          fun hc => absurd hc (by simp), fun _ => rfl⟩
    · have hb : (note.authorId != u) = true := by simpa using hauth
      rw [if_pos hb] at h
      exact absurd h (by simp)

/-- Unfolding lemma for a successful `restoreVersion`: recovers the found
note, the author check, the target version row, and the exact shape of the
resulting state. -/
lemma restore_ok_elim {db : DB} {noteId v u : Nat} {db' : DB}
    (h : restoreVersion db noteId v u = .ok db') :
    ∃ note target, db.notes.find? (fun n => n.id == noteId) = some note ∧
      note.authorId = u ∧
      db.noteVersions.find? (fun w => w.noteId == noteId && w.version == v) =
        some target ∧
      db'.users = db.users ∧
      db'.nextId = db.nextId ∧
      db'.noteUsers = db.noteUsers ∧
      db'.notifications = db.notifications ∧
      db'.notes = db.notes.map (fun n =>
        if n.id == noteId then
          { n with title := target.title, description := target.description }
        else n) ∧
      db'.noteVersions = db.noteVersions ++
        [⟨noteId, target.title, target.description,
          latestVersionNum db noteId + 1, u⟩] := by
  unfold restoreVersion at h
  cases hf : findOne db noteId u with
  | error e => rw [hf] at h; exact absurd h (by simp)
  | ok note =>
    rw [hf] at h
    dsimp only at h
    by_cases hauth : note.authorId = u
    · simp only [hauth, bne_self_eq_false, Bool.false_eq_true, if_false] at h
      cases ht : db.noteVersions.find? (fun w => w.noteId == noteId && w.version == v) with
      | none => rw [ht] at h; exact absurd h (by simp)
      | some target =>
        rw [ht] at h
        dsimp only at h
        cases h
        exact ⟨note, target, findOne_ok_elim hf, hauth, rfl, rfl, rfl, rfl, rfl,
          rfl, rfl⟩
    · have hb : (note.authorId != u) = true := by simpa using hauth
      rw [if_pos hb] at h
      exact absurd h (by simp)

/-- `find?` by id commutes with an id-guarded rewrite map: mapping
`fun n => if n.id == noteId then f n else n` over the table and looking the
id up afterwards finds the rewritten row, provided `f` preserves ids. -/
lemma find?_map_ite (f : NoteRec → NoteRec) (hid : ∀ n, (f n).id = n.id)
    (l : List NoteRec) (noteId : Nat) (note : NoteRec)
    (hfind : l.find? (fun n => n.id == noteId) = some note) :
    (l.map (fun n => if n.id == noteId then f n else n)).find?
      (fun n => n.id == noteId) = some (f note) := by
  induction l with
  | nil => simp at hfind
  | cons a t ih =>
    by_cases h : (a.id == noteId) = true
    · have he : a.id = noteId := by simpa using h
      simp only [List.find?_cons, h] at hfind
      have ha : a = note := by injection hfind
      subst ha
      simp only [List.map_cons, h, if_true, List.find?_cons, hid, he,
        beq_self_eq_true]
    · have h' : (a.id == noteId) = false := by simpa using h
      simp only [List.find?_cons, h'] at hfind
      simp only [List.map_cons, h', Bool.false_eq_true, if_false, List.find?_cons]
      exact ih hfind

/-- Appending one version row extends a note's recorded versions by its
number when it belongs to the note, and not at all otherwise. -/
lemma versionNums_snoc (db db2 : DB) (row : NoteVersionRec) (noteId : Nat)
    (h : db2.noteVersions = db.noteVersions ++ [row]) :
    versionNums db2 noteId = versionNums db noteId ++
      (if row.noteId = noteId then [row.version] else []) := by
  unfold versionNums
  rw [h, List.filter_append, List.map_append]
  congr 1
  by_cases hr : row.noteId = noteId
  · simp [hr]
  · simp [hr]

lemma Inv_of_versions_eq {db db' : DB} {noteId : Nat} (hinv : Inv db noteId)
    (h : db'.noteVersions = db.noteVersions) : Inv db' noteId := by
  have hv : versionNums db' noteId = versionNums db noteId := by
    unfold versionNums; rw [h]
  unfold Inv
  rw [hv]
  exact hinv

lemma Inv_snoc_other {db db' : DB} {noteId : Nat} (hinv : Inv db noteId)
    (row : NoteVersionRec) (hrow : row.noteId ≠ noteId)
    (h : db'.noteVersions = db.noteVersions ++ [row]) : Inv db' noteId := by
  have hv := versionNums_snoc db db' row noteId h
  rw [if_neg hrow, List.append_nil] at hv
  unfold Inv
  rw [hv]
  exact hinv

/-- Inserting a row numbered `latestVersionNum + 1` preserves the gap-free
invariant: the sequence `1..n` becomes `1..n+1`. -/
lemma Inv_snoc_latest {db db' : DB} {noteId : Nat} (hinv : Inv db noteId)
    (t d : String) (u : Nat)
    (h : db'.noteVersions = db.noteVersions ++
      [⟨noteId, t, d, latestVersionNum db noteId + 1, u⟩]) : Inv db' noteId := by
  have hlat : latestVersionNum db noteId = (versionNums db noteId).length :=
    latestVersionNum_of_inv hinv
  have hsnoc := versionNums_snoc db db'
    ⟨noteId, t, d, latestVersionNum db noteId + 1, u⟩ noteId h
  rw [if_pos rfl] at hsnoc
  unfold Inv
  calc versionNums db' noteId
      = versionNums db noteId ++ [latestVersionNum db noteId + 1] := hsnoc
    _ = List.range' 1 (versionNums db noteId).length ++
        [1 + (versionNums db noteId).length] := by
        rw [hlat, Nat.add_comm]
        conv_lhs => rw [hinv]
        simp [List.length_range']
    _ = List.range' 1 ((versionNums db noteId).length + 1) :=
        (List.range'_1_concat 1 _).symm
    _ = List.range' 1 (versionNums db' noteId).length := by
        rw [hsnoc]
        simp [hlat]

/-- Every request preserves well-formedness of the store. -/
lemma WF_applyOp (op : Op) {db : DB} (h : WF db) : WF (applyOp db op) := by
  obtain ⟨h1, h2⟩ := h
  cases op with
  | createOp dto u =>
    have hap : applyOp db (.createOp dto u) = create db dto u := rfl
    rw [hap]
    constructor
    · intro n hn
      simp only [create, List.mem_append, List.mem_singleton] at hn
      show n.id < db.nextId + 1
      rcases hn with hn | rfl
      · exact Nat.lt_succ_of_lt (h1 n hn)
      · exact Nat.lt_succ_self _
    · intro w hw
      simp only [create, List.mem_append, List.mem_singleton] at hw
      show w.noteId < db.nextId + 1
      rcases hw with hw | rfl
      · exact Nat.lt_succ_of_lt (h2 w hw)
      · exact Nat.lt_succ_self _
  | updateOp id dto u =>
    cases hu : update db id dto u with
    | error e =>
      have hap : applyOp db (.updateOp id dto u) = db := by
        simp only [applyOp, hu]
      rw [hap]
      exact ⟨h1, h2⟩
    | ok db' =>
      have hap : applyOp db (.updateOp id dto u) = db' := by
        simp only [applyOp, hu]
      rw [hap]
      obtain ⟨note, hfind, _, _, hnext, _, _, hnotes, hvt, hvf⟩ := update_ok_elim hu
      have hid : note.id = id := by
        have hp := List.find?_some hfind
        simpa using hp
      have hidlt : id < db.nextId := hid ▸ h1 note (List.mem_of_find?_eq_some hfind)
      constructor
      · intro n hn
        rw [hnotes] at hn
        rw [hnext]
        obtain ⟨m, hm, rfl⟩ := List.mem_map.mp hn
        by_cases hmid : (m.id == id) = true
        · simp only [hmid, if_true]
          exact h1 m hm
        · simp only [hmid, Bool.false_eq_true, if_false]
          exact h1 m hm
      · intro w hw
        rw [hnext]
        cases hcc : contentChanged dto note with
        | true =>
          rw [hvt hcc] at hw
          rcases List.mem_append.mp hw with hw | hw
          · exact h2 w hw
          · rcases List.mem_singleton.mp hw with rfl
            exact hidlt
        | false =>
          rw [hvf hcc] at hw
          exact h2 w hw
  | restoreOp id v u =>
    cases hr : restoreVersion db id v u with
    | error e =>
      have hap : applyOp db (.restoreOp id v u) = db := by
        simp only [applyOp, hr]
      rw [hap]
      exact ⟨h1, h2⟩
    | ok db' =>
      have hap : applyOp db (.restoreOp id v u) = db' := by
        simp only [applyOp, hr]
      rw [hap]
      obtain ⟨note, target, hfind, _, _, _, hnext, _, _, hnotes, hvers⟩ :=
        restore_ok_elim hr
      have hid : note.id = id := by
        have hp := List.find?_some hfind
        simpa using hp
      have hidlt : id < db.nextId := hid ▸ h1 note (List.mem_of_find?_eq_some hfind)
      constructor
      · intro n hn
        rw [hnotes] at hn
        rw [hnext]
        obtain ⟨m, hm, rfl⟩ := List.mem_map.mp hn
        by_cases hmid : (m.id == id) = true
        · simp only [hmid, if_true]
          exact h1 m hm
        · simp only [hmid, Bool.false_eq_true, if_false]
          exact h1 m hm
      · intro w hw
        rw [hnext]
        rw [hvers] at hw
        rcases List.mem_append.mp hw with hw | hw
        · exact h2 w hw
        · rcases List.mem_singleton.mp hw with rfl
          exact hidlt
  | shareOp id S u =>
    cases hs : shareNote db id S u with
    | error e =>
      have hap : applyOp db (.shareOp id S u) = db := by
        simp only [applyOp, hs]
      rw [hap]
      exact ⟨h1, h2⟩
    | ok db' =>
      have hap : applyOp db (.shareOp id S u) = db' := by
        simp only [applyOp, hs]
      rw [hap]
      obtain ⟨note, hfind, _, _, _, hvers, _, hnext, _, hnotes⟩ :=
        shareNote_ok_elim hs
      constructor
      · intro n hn
        rw [hnotes] at hn
        rw [hnext]
        by_cases hvis : note.visibility = Visibility.PRIVATE
        · rw [if_pos hvis] at hn
          obtain ⟨m, hm, rfl⟩ := List.mem_map.mp hn
          by_cases hmid : (m.id == id) = true
          · simp only [hmid, if_true]
            exact h1 m hm
          · simp only [hmid, Bool.false_eq_true, if_false]
            exact h1 m hm
        · rw [if_neg hvis] at hn
          exact h1 n hn
      · intro w hw
        rw [hvers] at hw
        rw [hnext]
        exact h2 w hw

/-- Every request preserves the gap-free version invariant of every
well-formed note. -/
lemma Inv_applyOp (op : Op) {db : DB} {noteId : Nat} (hwf : WF db)
    (hinv : Inv db noteId) : Inv (applyOp db op) noteId := by
  cases op with
  | createOp dto u =>
    have hap : applyOp db (.createOp dto u) = create db dto u := rfl
    rw [hap]
    by_cases hid : db.nextId = noteId
    · have hempty : versionNums db noteId = [] := by
        unfold versionNums
        have hnil : db.noteVersions.filter (fun w => w.noteId == noteId) = [] := by
          apply List.filter_eq_nil_iff.mpr
          intro w hw
          have := hwf.2 w hw
          simp only [beq_iff_eq]
          omega
        rw [hnil]
        rfl
      have hlat0 : latestVersionNum db noteId = 0 := by
        unfold latestVersionNum
        rw [hempty]
        rfl
      refine Inv_snoc_latest hinv dto.title dto.description u ?_
      rw [hlat0, ← hid]
      rfl
    · refine Inv_snoc_other hinv ⟨db.nextId, dto.title, dto.description, 1, u⟩ hid ?_
      rfl
  | updateOp id dto u =>
    cases hu : update db id dto u with
    | error e =>
      have hap : applyOp db (.updateOp id dto u) = db := by
        simp only [applyOp, hu]
      rw [hap]
      exact hinv
    | ok db' =>
      have hap : applyOp db (.updateOp id dto u) = db' := by
        simp only [applyOp, hu]
      rw [hap]
      obtain ⟨note, hfind, _, _, _, _, _, _, hvt, hvf⟩ := update_ok_elim hu
      cases hcc : contentChanged dto note with
      | true =>
        by_cases hid : id = noteId
        · subst hid
          exact Inv_snoc_latest hinv _ _ u (hvt hcc)
        · exact Inv_snoc_other hinv _ hid (hvt hcc)
      | false =>
        exact Inv_of_versions_eq hinv (hvf hcc)
  | restoreOp id v u =>
    cases hr : restoreVersion db id v u with
    | error e =>
      have hap : applyOp db (.restoreOp id v u) = db := by
        simp only [applyOp, hr]
      rw [hap]
      exact hinv
    | ok db' =>
      have hap : applyOp db (.restoreOp id v u) = db' := by
        simp only [applyOp, hr]
      rw [hap]
      obtain ⟨note, target, _, _, _, _, _, _, _, _, hvers⟩ := restore_ok_elim hr
      by_cases hid : id = noteId
      · subst hid
        exact Inv_snoc_latest hinv _ _ u hvers
      · exact Inv_snoc_other hinv _ hid hvers
  | shareOp id S u =>
    cases hs : shareNote db id S u with
    | error e =>
      have hap : applyOp db (.shareOp id S u) = db := by
        simp only [applyOp, hs]
      rw [hap]
      exact hinv
    | ok db' =>
      have hap : applyOp db (.shareOp id S u) = db' := by
        simp only [applyOp, hs]
      rw [hap]
      obtain ⟨note, _, _, _, _, hvers, _, _, _, _⟩ := shareNote_ok_elim hs
      exact Inv_of_versions_eq hinv hvers

/-- Any trace of requests preserves well-formedness and the gap-free
invariant. -/
lemma Inv_foldl (ops : List Op) {db : DB} {noteId : Nat} (hwf : WF db)
    (hinv : Inv db noteId) :
    WF (ops.foldl applyOp db) ∧ Inv (ops.foldl applyOp db) noteId := by
  induction ops generalizing db with
  | nil => exact ⟨hwf, hinv⟩
  | cons op t ih => exact ih (WF_applyOp op hwf) (Inv_applyOp op hwf hinv)

/-- C2.  An author's update inserts a new `NoteVersion` carrying the
post-update title/description and numbered one above the maximum recorded
version iff the supplied title or description differs from the persisted
value; an update supplying identical content, or changing only tags and/or
visibility, leaves the note's versions unchanged.  (`latestVersionNum` is
the maximum: the third conjunct bounds every recorded version by it.) -/
theorem update_versioning (db : DB) (id : Nat) (dto : UpdateNoteDto) (u : Nat)
    (db' : DB) (note : NoteRec)
    (hfind : db.notes.find? (fun n => n.id == id) = some note)
    (h : update db id dto u = .ok db') :
    (suppliedContentDiffers dto note →
      db'.noteVersions = db.noteVersions ++
        [⟨id, dto.title.getD note.title, dto.description.getD note.description,
          latestVersionNum db id + 1, u⟩]) ∧
    (¬ suppliedContentDiffers dto note → db'.noteVersions = db.noteVersions) ∧
    (∀ w ∈ db.noteVersions, w.noteId = id → w.version ≤ latestVersionNum db id) := by
  obtain ⟨note2, hfind2, hrest⟩ := update_ok_elim h
  have hn : note = note2 := Option.some.inj (hfind.symm.trans hfind2)
  subst hn
  obtain ⟨_, _, _, _, _, _, hvt, hvf⟩ := hrest
  refine ⟨?_, ?_, ?_⟩
  · intro hd
    exact hvt ((contentChanged_iff dto note).mpr hd)
  · intro hd
    apply hvf
    cases hcb : contentChanged dto note with
    | true => exact absurd ((contentChanged_iff dto note).mp hcb) hd
    | false => rfl
  · intro w hw hwid
    have hmem : w.version ∈ versionNums db id := by
      unfold versionNums
      exact List.mem_map.mpr ⟨w, List.mem_filter.mpr ⟨hw, by simp [hwid]⟩, rfl⟩
    exact le_foldr_max _ _ hmem

/-- C2 witness: on the concrete note 10 at version 1, a description change
appends version 2 with the new content, while an update resupplying the
identical title and changing only tags/visibility leaves the version table
untouched. -/
theorem update_versioning_witness :
    update c2db 10 c2dto 1 = .ok c2dbAfter ∧
    c2dbAfter.noteVersions = c2db.noteVersions ++ [⟨10, "T", "B2", 2, 1⟩] ∧
    update c2db 10 c2dtoNoop 1 = .ok c2dbAfterNoop ∧
    c2dbAfterNoop.noteVersions = c2db.noteVersions := by
  have h1 : update c2db 10 c2dto 1 = .ok c2dbAfter := by rfl
  have h2 : update c2db 10 c2dtoNoop 1 = .ok c2dbAfterNoop := by rfl
  have hm1 := update_versioning c2db 10 c2dto 1 c2dbAfter
    ⟨10, "T", "B", [], .PRIVATE, 1⟩ (by rfl) h1
  have hm2 := update_versioning c2db 10 c2dtoNoop 1 c2dbAfterNoop
    ⟨10, "T", "B", [], .PRIVATE, 1⟩ (by rfl) h2
  refine ⟨h1, ?_, h2, ?_⟩
  · exact (hm1.1 (Or.inr ⟨"B2", rfl, by decide⟩)).trans (by rfl)
  · refine hm2.2.1 ?_
    rintro (⟨t, ht, hne⟩ | ⟨d, hd, hne⟩) <;> simp_all [c2dtoNoop]

/-- C3.  An author's restore of a missing `(noteId, version)` pair fails
with `NotFound` and leaves the store untouched; restoring an existing
version copies its title/description onto the live note and appends exactly
one fresh `NoteVersion` with that content numbered `latestVersionNum + 1`,
all pre-existing version rows surviving unchanged. -/
theorem restore_version_semantics (db : DB) (noteId v u : Nat) (note : NoteRec)
    (hfind : db.notes.find? (fun n => n.id == noteId) = some note)
    (hauth : note.authorId = u) :
    (db.noteVersions.find? (fun w => w.noteId == noteId && w.version == v) = none →
      restoreVersion db noteId v u = .error .notFound ∧
      applyOp db (.restoreOp noteId v u) = db) ∧
    (∀ target,
      db.noteVersions.find? (fun w => w.noteId == noteId && w.version == v) =
        some target →
      ∃ db', restoreVersion db noteId v u = .ok db' ∧
        db'.notes.find? (fun n => n.id == noteId) =
          some { note with title := target.title,
                           description := target.description } ∧
        db'.noteVersions = db.noteVersions ++
          [⟨noteId, target.title, target.description,
            latestVersionNum db noteId + 1, u⟩]) := by
  have hacc : hasAccess db note u = true := by simp [hasAccess, hauth]
  have hfo : findOne db noteId u = .ok note := by
    unfold findOne
    rw [hfind]
    dsimp only
    rw [if_pos hacc]
  constructor
  · intro hnone
    have herr : restoreVersion db noteId v u = .error .notFound := by
      unfold restoreVersion
      rw [hfo]
      dsimp only
      simp only [hauth, bne_self_eq_false, Bool.false_eq_true, if_false, hnone]
    exact ⟨herr, by simp only [applyOp, herr]⟩
  · intro target htarget
    refine ⟨{ db with
        notes := db.notes.map (fun n =>
          if n.id == noteId then
            { n with title := target.title, description := target.description }
          else n),
        noteVersions := db.noteVersions ++
          [⟨noteId, target.title, target.description,
            latestVersionNum db noteId + 1, u⟩] }, ?_, ?_, rfl⟩
    · unfold restoreVersion
      rw [hfo]
      dsimp only
      simp only [hauth, bne_self_eq_false, Bool.false_eq_true, if_false, htarget]
      rfl
    · exact find?_map_ite
        (fun n => { n with title := target.title, description := target.description })
        (fun n => rfl) db.notes noteId note hfind

/-- C3 witness: on note 10 with versions `[1, 2]`, restoring version 99
fails with `NotFound`, while restoring version 1 appends version 3 with
version 1's content and puts that content on the live note. -/
theorem restore_version_semantics_witness :
    restoreVersion c3db 10 99 1 = .error .notFound ∧
    restoreVersion c3db 10 1 1 = .ok c3dbAfter ∧
    c3dbAfter.noteVersions = c3db.noteVersions ++ [⟨10, "T", "B", 3, 1⟩] ∧
    c3dbAfter.notes.find? (fun n => n.id == 10) =
      some ⟨10, "T", "B", [], .PRIVATE, 1⟩ := by
  have hnote : c3db.notes.find? (fun n => n.id == 10) =
      some ⟨10, "T2", "B2", [], .PRIVATE, 1⟩ := by rfl
  have h99 := (restore_version_semantics c3db 10 99 1
    ⟨10, "T2", "B2", [], .PRIVATE, 1⟩ hnote rfl).1 (by rfl)
  obtain ⟨db', hok, hfind', hvers⟩ := (restore_version_semantics c3db 10 1 1
    ⟨10, "T2", "B2", [], .PRIVATE, 1⟩ hnote rfl).2 ⟨10, "T", "B", 1, 1⟩ (by rfl)
  have he : db' = c3dbAfter := by
    have hc : restoreVersion c3db 10 1 1 = .ok c3dbAfter := by rfl
    rw [hok] at hc
    injection hc
  subst he
  exact ⟨h99.1, hok, hvers.trans (by rfl), hfind'.trans (by rfl)⟩

/-- C4.  A freshly created note records exactly version `[1]`; every request
preserves well-formedness and the gap-free invariant (version numbers are
exactly `1..n`, strictly increasing, never reused), hence any trace does
too; and on the concrete trace create → content update → restore(v1) the
sequence is exactly `[1, 2, 3]`, version 3's content equals version 1's, and
versions 1 and 2 survive unmodified. -/
theorem version_numbers_gap_free :
    (∀ (db : DB) (dto : CreateNoteDto) (u : Nat), WF db →
      versionNums (create db dto u) db.nextId = [1]) ∧
    (∀ (db : DB) (noteId : Nat) (op : Op), WF db → Inv db noteId →
      WF (applyOp db op) ∧ Inv (applyOp db op) noteId) ∧
    (∀ (db : DB) (noteId : Nat) (ops : List Op), WF db → Inv db noteId →
      Inv (ops.foldl applyOp db) noteId) ∧
    (versionNums c4final 100 = [1, 2, 3] ∧
     c4final.noteVersions =
       [⟨100, "T", "B", 1, 1⟩, ⟨100, "T", "B2", 2, 1⟩, ⟨100, "T", "B", 3, 1⟩] ∧
     c4final.notes.find? (fun n => n.id == 100) =
       some ⟨100, "T", "B", [], .PRIVATE, 1⟩) := by
  refine ⟨?_, ?_, ?_, by decide, by decide, by decide⟩
  · intro db dto u hwf
    have hnil : db.noteVersions.filter (fun w => w.noteId == db.nextId) = [] := by
      apply List.filter_eq_nil_iff.mpr
      intro w hw
      have := hwf.2 w hw
      simp only [beq_iff_eq]
      omega
    have hsnoc := versionNums_snoc db (create db dto u)
      ⟨db.nextId, dto.title, dto.description, 1, u⟩ db.nextId rfl
    rw [if_pos rfl] at hsnoc
    rw [hsnoc]
    unfold versionNums
    rw [hnil]
    rfl
  · intro db noteId op hwf hinv
    exact ⟨WF_applyOp op hwf, Inv_applyOp op hwf hinv⟩
  · intro db noteId ops hwf hinv
    exact (Inv_foldl ops hwf hinv).2

/-- C4 witness: the concrete scenario store is well-formed with the
invariant holding initially and at the end of the trace. -/
theorem version_numbers_gap_free_witness :
    WF c4db0 ∧ Inv c4db0 100 ∧ Inv (c4ops.foldl applyOp c4db0) 100 := by
  refine ⟨by decide, by decide, ?_⟩
  exact version_numbers_gap_free.2.2.1 c4db0 100 c4ops (by decide) (by decide)

lemma mapGet_set_present (m : List (Nat × Nat)) (k v : Nat)
    (hany : m.any (fun p => p.1 == k) = true) :
    mapGet (m.map (fun p => if p.1 == k then (k, v) else p)) k = some v := by
  induction m with
  | nil => simp at hany
  | cons a t ih =>
    by_cases hk : (a.1 == k) = true
    · simp only [List.map_cons, hk, if_true]
      unfold mapGet
      have hhead : (((k, v) :: t.map (fun p => if p.1 == k then (k, v) else p)).find?
          (fun p => p.1 == k)) = some (k, v) := by
        apply List.find?_cons_of_pos
        simp
      rw [hhead]
      rfl
    · have hk' : (a.1 == k) = false := by simpa using hk
      have hany' : t.any (fun p => p.1 == k) = true := by
        simpa [hk'] using hany
      simp only [List.map_cons, hk', Bool.false_eq_true, if_false]
      unfold mapGet
      simp only [List.find?_cons, hk']
      exact ih hany'

lemma mapGet_append_absent (m : List (Nat × Nat)) (k v : Nat)
    (hnone : m.any (fun p => p.1 == k) = false) :
    mapGet (m ++ [(k, v)]) k = some v := by
  induction m with
  | nil => simp [mapGet, List.find?_cons]
  | cons a t ih =>
    have hk : (a.1 == k) = false := by
      cases hc : (a.1 == k) with
      | false => rfl
      | true => rw [List.any_cons, hc] at hnone; exact absurd hnone (by simp)
    have hrest : t.any (fun p => p.1 == k) = false := by
      rw [List.any_cons, hk] at hnone
      simpa using hnone
    simp only [List.cons_append]
    unfold mapGet
    simp only [List.find?_cons, hk]
    exact ih hrest

/-- `Map.set` followed by `Map.get` of the same key yields the new value. -/
lemma mapGet_mapSet (m : List (Nat × Nat)) (k v : Nat) :
    mapGet (mapSet m k v) k = some v := by
  unfold mapSet
  cases hany : m.any (fun p => p.1 == k) with
  | true =>
    rw [if_pos rfl]
    exact mapGet_set_present m k v hany
  | false =>
    rw [if_neg (by simp)]
    exact mapGet_append_absent m k v hany

lemma find?_filter_ne (m : List (Nat × Nat)) (k : Nat) :
    (m.filter (fun p => p.1 != k)).find? (fun p => p.1 == k) = none := by
  induction m with
  | nil => rfl
  | cons a t ih =>
    by_cases hk : (a.1 == k) = true
    · have hb : (a.1 != k) = false := by simp [bne, hk]
      simp only [List.filter_cons, hb, Bool.false_eq_true, if_false]
      exact ih
    · have hk' : (a.1 == k) = false := by simpa using hk
      have hb : (a.1 != k) = true := by simp [bne, hk']
      simp only [List.filter_cons, hb, if_true, List.find?_cons, hk']
      exact ih

/-- `Map.delete` removes the key: a subsequent `get` yields nothing. -/
lemma mapGet_mapDelete (m : List (Nat × Nat)) (k : Nat) :
    mapGet (mapDelete m k) k = none := by
  unfold mapGet mapDelete
  rw [find?_filter_ne]
  rfl

/-- C9 counterexample: user 1 connects on socket 10, then on socket 11, then
socket 10 disconnects.  Socket 11 — user 1's most recent connection — never
disconnects, yet the registry entry for user 1 is gone: a user whose most
recent connection is still live is not registered under it. -/
theorem registry_drops_live_connection_counterexample :
    mostRecentConnect [WsEvent.connect 1 10, WsEvent.connect 1 11,
      WsEvent.disconnect 1 10] 1 = some 11 ∧
    WsEvent.disconnect 1 11 ∉ [WsEvent.connect 1 10, WsEvent.connect 1 11,
      WsEvent.disconnect 1 10] ∧
    mapGet (runEvents [WsEvent.connect 1 10, WsEvent.connect 1 11,
      WsEvent.disconnect 1 10]) 1 = none := by
  decide

/-- C9 amended: a successful authenticated connect registers the user under
the connecting socket, overwriting any earlier registration; a failed
authentication registers nothing; and a disconnect of ANY socket
authenticated as the user removes the user's registry entry unconditionally
— even when the user's most recent connection is still live.  The registry
therefore tracks the most recent registration only until the next
disconnect carrying that identity. -/
theorem registry_last_writer_wins (reg : List (Nat × Nat)) (u s : Nat) :
    mapGet ((handleConnection reg (some u) s).1) u = some s ∧
    (handleConnection reg none s).1 = reg ∧
    mapGet (handleDisconnect reg (some u)) u = none ∧
    handleDisconnect reg none = reg :=
  ⟨mapGet_mapSet reg u s, rfl, mapGet_mapDelete reg u, rfl⟩

end NotesApp
